import Mathlib

/-!
# Verification of `starcli/layouts.py`

Shallow embedding of the layout/formatting engine of `starcli` (file
`src/starcli/layouts.py`) and proofs about it.

Modeling conventions, used consistently below:

* Python `int` values are `ℤ` (or `ℕ` where the source value is provably
  nonnegative), Python strings are Lean `String`.
* Python float expressions are modeled in exact rational arithmetic:
  `number / 100.0` becomes `(number : ℚ) / 100`, `math.ceil` becomes `⌈·⌉`,
  and `int(x)` on a float becomes truncation toward zero.  Python's
  `round(x, 1)` is modeled as exact round-half-to-even to one decimal place
  (CPython's documented rounding mode).  Binary-representation effects of
  IEEE-754 doubles are not modeled; they can differ from exact arithmetic
  only on half-way ties (inputs `n ≡ 5 (mod 100)` in `shorten_count`) and at
  magnitudes around `2^53`, and every concrete input evaluated in a theorem
  below is far from both regimes.
* `str(i)` on a nonnegative int is modeled by the base-10 printer `decStr`.
* Fallible Python calls (`int(s)`, `float(s)`, `max(empty)`) are modeled
  with `Except PyErr`, mirroring the `ValueError`s CPython raises.
* Console output is modeled as the list of content pieces handed to
  `rich`; styling, column widths and padding are presentation details with
  no bearing on any claim and are not represented.
-/

/-- Model of a `ValueError` raised by `int()`, `float()` or `max()`;
the payload is the exception message. -/
inductive PyErr where
  | valueError (msg : String)
deriving DecidableEq

/-- One renderable piece handed to `console.print` (content only). -/
inductive Out where
  | rule
  | text (s : String)
  | tableOut (rows : List (List String))
  | panels (ps : List String)
deriving DecidableEq

/-- A repository record, per the data model of the spec (§3).  Counts are
kept as strings exactly as in the source's `repo` dicts. -/
structure Repo where
  name : String
  full_name : String
  html_url : String
  language : String
  description : String
  stargazers_count : String
  forks : String
  date_range : Option String
deriving DecidableEq

/-- The character for decimal digit `d` (`'0'`–`'9'` for `d < 10`). -/
def dChar (d : ℕ) : Char := Char.ofNat (48 + d)

/-- Numeric value of a digit character. -/
def charVal (c : Char) : ℕ := c.toNat - 48

/-- Value of a big-endian digit-character list. -/
def natVal (cs : List Char) : ℕ := cs.foldl (fun a c => 10 * a + charVal c) 0

/-- Fuel-driven base-10 printing accumulator (most significant digit first;
`acc` is the already-produced tail). -/
def decStrAux : ℕ → ℕ → List Char → List Char
  | 0, _, acc => acc
  | fuel + 1, n, acc =>
    if n < 10 then dChar n :: acc
    else decStrAux fuel (n / 10) (dChar (n % 10) :: acc)

/-- Model of Python `str` on a nonnegative integer: its base-10 decimal
string. -/
def decStr (n : ℕ) : String := ⟨decStrAux (n + 1) n []⟩

/-- Model of Python `str.lower()`. -/
def pyLower (s : String) : String := ⟨s.data.map Char.toLower⟩

/-- Model of Python `str.replace('k', '')`: removes every `'k'`. -/
def stripK (s : String) : String := ⟨s.data.filter (· ≠ 'k')⟩

/-- Model of Python `int(s)` on a string: optional sign followed by at
least one decimal digit (underscore/whitespace forms are not modeled; no
claim involves them).  `none` models the raised `ValueError`. -/
def pyInt? (s : String) : Option ℤ :=
  let core : List Char → Option ℕ := fun cs =>
    if cs ≠ [] ∧ cs.all Char.isDigit then some (natVal cs) else none
  match s.data with
  | [] => none
  | c :: cs =>
    if c = '-' then (core cs).map (fun v => -(v : ℤ))
    else if c = '+' then (core cs).map (fun v => (v : ℤ))
    else (core (c :: cs)).map (fun v => (v : ℤ))

/-- Exact-value model of Python `float(s)` on plain decimal literals:
returns `(m, s)` with the parsed value equal to `m / 10 ^ s`.  Exponent,
`inf`/`nan`, underscore and whitespace forms are not modeled (no claim
involves them).  `none` models the raised `ValueError`. -/
def pyFloatCore? (cs : List Char) : Option (ℤ × ℕ) :=
  match cs.dropWhile (· ≠ '.') with
  | [] =>
    if cs.takeWhile (· ≠ '.') ≠ [] ∧ (cs.takeWhile (· ≠ '.')).all Char.isDigit
    then some ((natVal (cs.takeWhile (· ≠ '.')) : ℤ), 0) else none
  | _ :: fp =>
    if (cs.takeWhile (· ≠ '.') ≠ [] ∨ fp ≠ []) ∧ (cs.takeWhile (· ≠ '.')).all Char.isDigit ∧
        fp.all Char.isDigit ∧ ¬ fp.contains '.'
    then some ((natVal (cs.takeWhile (· ≠ '.')) * 10 ^ fp.length + natVal fp : ℤ), fp.length)
    else none

/-- Sign handling of `pyFloat?`; see `pyFloatCore?` for the digits. -/
def pyFloat? (s : String) : Option (ℤ × ℕ) :=
  match s.data with
  | [] => none
  | c :: cs =>
    if c = '-' then (pyFloatCore? cs).map (fun p => (-p.1, p.2))
    else if c = '+' then pyFloatCore? cs
    else pyFloatCore? (c :: cs)

/-- Python `int(x)` on a float / exact rational: truncation toward zero.
For a decimal value `m / 10 ^ s` times 1000 this is `(1000 * m).tdiv (10 ^ s)`. -/
def pyTruncScaled (m : ℤ) (s : ℕ) : ℤ := (1000 * m).tdiv ((10 : ℤ) ^ s)

/-- Model of the inner helper `parse_count` of `graph_layout`
(`layouts.py` lines 62–69):

    def parse_count(count_str):
        if count_str == "-1":
            return 0
        if isinstance(count_str, str) and 'k' in count_str.lower():
            return int(float(count_str.lower().replace('k', '')) * 1000)
        return int(count_str)

`isinstance(count_str, str)` is always true in the model (counts are
strings).  The float product `float(t) * 1000` and the `int()` truncation
are modeled in exact arithmetic via `pyTruncScaled`.  The error messages
mirror CPython's `ValueError` messages, which name only the offending
literal. -/
def parse_count (count_str : String) : Except PyErr ℤ :=
  if count_str = "-1" then .ok 0
  else if (pyLower count_str).data.contains 'k' then
    match pyFloat? (stripK (pyLower count_str)) with
    | some (m, s) => .ok (pyTruncScaled m s)
    | none => .error (.valueError
        ("could not convert string to float: '" ++ stripK (pyLower count_str) ++ "'"))
  else
    match pyInt? count_str with
    | some z => .ok z
    | none => .error (.valueError
        ("invalid literal for int() with base 10: '" ++ count_str ++ "'"))

/-- `SYMBOL_MAP["stars"]` (`layouts.py` line 16). -/
def SYMBOL_MAP_stars : String := "★"

/-- `SYMBOL_MAP["forks"]` (`layouts.py` line 16). -/
def SYMBOL_MAP_forks : String := "⎇"

/-- Model of `format_stats` (`layouts.py` lines 39–43):

    stats = f"{stars}{SYMBOL_MAP['stars']} " if stars != "-1" else ""
    stats += f"{forks}{SYMBOL_MAP['forks']} " if forks != "-1" else ""
    return stats
-/
def format_stats (stars forks : String) : String :=
  (if stars ≠ "-1" then stars ++ SYMBOL_MAP_stars ++ " " else "") ++
  (if forks ≠ "-1" then forks ++ SYMBOL_MAP_forks ++ " " else "")

/-- Content model of `format_date_range` (`layouts.py` lines 46–56): empty
for a falsy argument, otherwise the argument with `" stars"` replaced by
the star glyph, wrapped in parentheses (styling not represented). -/
def format_date_range (date_range : Option String) : String :=
  match date_range with
  | none => ""
  | some s => if s = "" then "" else "(" ++ s.replace " stars" SYMBOL_MAP_stars ++ ")"

/-- Exact-arithmetic model of Python's `round()` to an integer:
round-half-to-even (banker's rounding). -/
def pyRound (x : ℚ) : ℤ :=
  let f := ⌊x⌋
  let r := x - f
  if r < 1/2 then f
  else if 1/2 < r then f + 1
  else if Even f then f else f + 1

/-- Exact-arithmetic model of Python's `round(x, 1)`: round to one decimal
place, half to even. -/
def pyRound1 (x : ℚ) : ℚ := (pyRound (10 * x) : ℚ) / 10

/-- The intermediate `new_number` of `shorten_count` (`layouts.py` line 28):

    new_number = math.ceil(round(number / 100.0, 1)) * 100
-/
def new_number (n : ℕ) : ℤ := ⌈pyRound1 ((n : ℚ) / 100)⌉ * 100

/-- Model of `shorten_count` (`layouts.py` lines 22–36):

    if number < 1000:
        return str(number)
    number = int(number)
    new_number = math.ceil(round(number / 100.0, 1)) * 100
    if new_number % 1000 == 0:
        return str(new_number)[0] + "k"
    if new_number < 1000:
        return str(number)
    return str(new_number / 1000.0) + "k"

`int(number)` is the identity on ints.  `str(new_number)[0]` is the first
character of the decimal string (here `new_number ≥ 1000 > 0`, so there is
no sign character).  On the final line `new_number` is a positive multiple
of 100 (it is `⌈·⌉ * 100` and ≥ 1000 on that path), so Python's shortest
round-trip repr of the float `new_number / 1000.0` is exactly the
one-decimal string `⌊new_number/1000⌋.(new_number % 1000 / 100)`, which is
how the model renders it. -/
def shorten_count (n : ℕ) : String :=
  if n < 1000 then decStr n
  else
    let nn : ℕ := (new_number n).toNat
    if nn % 1000 = 0 then ⟨(decStr nn).data.take 1⟩ ++ "k"
    else if nn < 1000 then decStr n
    else decStr (nn / 1000) ++ "." ++ decStr (nn % 1000 / 100) ++ "k"

/-- `max_bar_width` (`layouts.py` line 76). -/
def max_bar_width : ℕ := 40

/-- Star bar width of one record (`layouts.py` line 99):

    stars_bar_width = int((stars_count / max_stars) * max_bar_width) if max_stars > 0 else 0

In exact arithmetic `int((s / M) * 40)` is the truncation toward zero of
the rational `s * 40 / M`. -/
def stars_bar_width (stars_count max_stars : ℤ) : ℤ :=
  if 0 < max_stars then (stars_count * max_bar_width).tdiv max_stars else 0

/-- Fork bar width of one record (`layouts.py` line 100); note the source
divides by `max_stars`, not `max_forks`:

    forks_bar_width = int((forks_count / max_stars) * max_bar_width) if max_stars > 0 else 0
-/
def forks_bar_width (forks_count max_stars : ℤ) : ℤ :=
  if 0 < max_stars then (forks_count * max_bar_width).tdiv max_stars else 0

/-- Left-to-right traversal with first-failure semantics: how a Python
generator of fallible calls is consumed. -/
def mapExcept (f : α → Except PyErr β) : List α → Except PyErr (List β)
  | [] => .ok []
  | a :: as =>
    match f a with
    | .error e => .error e
    | .ok b =>
      match mapExcept f as with
      | .error e => .error e
      | .ok bs => .ok (b :: bs)

/-- Python `max()` on a list of ints: `ValueError` on the empty sequence,
the running maximum otherwise. -/
def pyMax (l : List ℤ) : Except PyErr ℤ :=
  match l with
  | [] => .error (.valueError "max() arg is an empty sequence")
  | x :: xs => .ok (xs.foldl max x)

/-- `max(parse_count(repo["stargazers_count"]) for repo in repos)`
(`layouts.py` line 72).  The generator is consumed left to right, so the
first failing `parse_count` aborts the call; `max()` of an empty sequence
raises `ValueError`. -/
def max_stars? (repos : List Repo) : Except PyErr ℤ :=
  match mapExcept (fun repo => parse_count repo.stargazers_count) repos with
  | .error e => .error e
  | .ok l => pyMax l

/-- `max(parse_count(repo["forks"]) for repo in repos)`
(`layouts.py` line 73). -/
def max_forks? (repos : List Repo) : Except PyErr ℤ :=
  match mapExcept (fun repo => parse_count repo.forks) repos with
  | .error e => .error e
  | .ok l => pyMax l

/-- `GRAPH_BLOCKS * width` (`layouts.py` lines 19, 103–104): the bar of
block glyphs; Python string repetition with a nonpositive count is empty. -/
def barStr (w : ℤ) : String := ⟨List.replicate w.toNat '█'⟩

/-- One row of the graph layout (`layouts.py` lines 83–114): name, stats
text (with optional date range), and the two labelled bars, re-parsing the
two counts exactly as the loop body does. -/
def graph_row (ms : ℤ) (repo : Repo) : Except PyErr (List Out) :=
  match parse_count repo.stargazers_count with
  | .error e => .error e
  | .ok stars_count =>
    match parse_count repo.forks with
    | .error e => .error e
    | .ok forks_count =>
      .ok [Out.text repo.name,
           Out.text (format_stats repo.stargazers_count repo.forks ++
             format_date_range repo.date_range),
           Out.text (SYMBOL_MAP_stars ++ " " ++ barStr (stars_bar_width stars_count ms) ++
             " " ++ repo.stargazers_count),
           Out.text (SYMBOL_MAP_forks ++ " " ++ barStr (forks_bar_width forks_count ms) ++
             " " ++ repo.forks)]

/-- Content model of `graph_layout` (`layouts.py` lines 58–116).  It first
computes `max_stars` and `max_forks` (the latter is computed but never used
afterwards, exactly as in the source), then builds one row per record via
`graph_row`.  The only console write happens after every row is built, so a
failed parse aborts the call before anything is printed. -/
def graph_layout (repos : List Repo) : Except PyErr (List Out) :=
  match max_stars? repos with
  | .error e => .error e
  | .ok ms =>
    match max_forks? repos with
    | .error e => .error e
    | .ok _mf =>
      match mapExcept (graph_row ms) repos with
      | .error e => .error e
      | .ok rows => .ok rows.flatten

/-- Fallback used by the layouts when `repo["language"]` is falsy. -/
def languageOr (r : Repo) : String := if r.language ≠ "" then r.language else "no language"

/-- Fallback used by the layouts when `repo["description"]` is falsy. -/
def descriptionOr (r : Repo) : String :=
  if r.description ≠ "" then r.description else "no description"

/-- Content model of the per-record block of `list_layout`
(`layouts.py` lines 123–159): rule, blank, title row (full name, stats),
blank, language/date row, blank, stripped description or fallback, blank. -/
def render_repo (repo : Repo) : List Out :=
  [Out.rule, Out.text "",
   Out.text repo.full_name,
   Out.text (format_stats repo.stargazers_count repo.forks),
   Out.text "",
   Out.text (languageOr repo),
   Out.text (format_date_range repo.date_range),
   Out.text "",
   Out.text (if repo.description ≠ "" then repo.description.trim else "no description"),
   Out.text ""]

/-- Content model of `list_layout` (`layouts.py` lines 118–167): one block
per record in input order, then a final closing rule.  The fixed width-80
centering is presentation only. -/
def list_layout (repos : List Repo) : List Out :=
  (repos.map render_repo).flatten ++ [Out.rule]

/-- Content model of `table_layout` (`layouts.py` lines 170–202): one
four-cell row per record (name, language, description, stats with the date
range on the following line). -/
def table_layout (repos : List Repo) : List Out :=
  [Out.tableOut (repos.map (fun r =>
    [r.name, languageOr r, descriptionOr r,
     format_stats r.stargazers_count r.forks ++ "\n" ++ format_date_range r.date_range]))]

/-- Description truncation of `grid_layout` (`layouts.py` line 237):
`description.truncate(90, overflow="ellipsis")` caps the text at 90 cells,
ending in an ellipsis when cropped.  The model counts characters rather
than terminal display cells (the difference only matters for wide glyphs,
which no claim involves). -/
def truncate90 (s : String) : String :=
  if s.length ≤ 90 then s else ⟨s.data.take 89⟩ ++ "…"

/-- Content model of `grid_layout` (`layouts.py` lines 205–251): one panel
per record assembling name, stats, date range (with its trailing newline),
language and truncated description. -/
def grid_layout (repos : List Repo) : List Out :=
  [Out.panels (repos.map (fun r =>
    r.name ++ "\n" ++ format_stats r.stargazers_count r.forks ++ " " ++
    format_date_range r.date_range ++ "\n" ++ languageOr r ++ "\n" ++
    truncate90 (descriptionOr r)))]

/-- Model of the dispatcher `print_layout` (`layouts.py` lines 266–275):

    if layout == "table": table_layout(*args)
    elif layout == "grid": grid_layout(*args)
    elif layout == "graph": graph_layout(*args)
    else: list_layout(*args)

Only `graph_layout` can raise; the other three renderers are total, which
the result type records by wrapping their output in `.ok`. -/
def print_layout (repos : List Repo) (layout : String) : Except PyErr (List Out) :=
  if layout = "table" then .ok (table_layout repos)
  else if layout = "grid" then .ok (grid_layout repos)
  else if layout = "graph" then graph_layout repos
  else .ok (list_layout repos)

/-- Model of `print_results` (`layouts.py` lines 254–263): with or without
the pager the same `print_layout` call runs; the pager changes only how the
terminal shows the bytes, not which bytes are produced. -/
def print_results (repos : List Repo) (page : Bool) (layout : String) :
    Except PyErr (List Out) :=
  if page then print_layout repos layout else print_layout repos layout

instance : DecidableEq (Except PyErr ℤ) := fun a b =>
  match a, b with
  | .ok x, .ok y => decidable_of_iff (x = y) (by simp)
  | .error x, .error y => decidable_of_iff (x = y) (by simp)
  | .ok _, .error _ => isFalse (by simp)
  | .error _, .ok _ => isFalse (by simp)

instance : DecidableEq (Except PyErr (List Out)) := fun a b =>
  match a, b with
  | .ok x, .ok y => decidable_of_iff (x = y) (by simp)
  | .error x, .error y => decidable_of_iff (x = y) (by simp)
  | .ok _, .error _ => isFalse (by simp)
  | .error _, .ok _ => isFalse (by simp)

/-- Integer form of `pyRound ((n : ℚ) / 10)` (proved equal below in
`pyRound_div10`): round `n/10` half to even. -/
def rheN (n : ℕ) : ℕ :=
  if n % 10 < 5 then n / 10
  else if 5 < n % 10 then n / 10 + 1
  else if (n / 10) % 2 = 0 then n / 10 else n / 10 + 1

/-- Integer form of `new_number` (proved equal below in `new_number_eq`). -/
def newN (n : ℕ) : ℕ := ((rheN n + 9) / 10) * 100

/-- Integer form of `shorten_count` (proved equal below in
`shorten_count_eq`), used to evaluate it without rational arithmetic. -/
def shortenN (n : ℕ) : String :=
  if n < 1000 then decStr n
  else if newN n % 1000 = 0 then ⟨(decStr (newN n)).data.take 1⟩ ++ "k"
  else if newN n < 1000 then decStr n
  else decStr (newN n / 1000) ++ "." ++ decStr (newN n % 1000 / 100) ++ "k"

/-- A count string satisfying the data-model invariant of the spec (§3):
it parses without error and denotes a nonnegative value (the sentinel
`"-1"` parses to `0`). -/
def validCount (s : String) : Prop := ∃ v, parse_count s = .ok v ∧ 0 ≤ v

/-! ## Digit-string foundations -/

/-- The ten digit characters behave as expected: value, digit test,
lower-casing fixpoint, and distinctness from the special characters the
parsers look at. -/
theorem dChar_facts : ∀ d, d < 10 →
    charVal (dChar d) = d ∧ (dChar d).isDigit = true ∧ (dChar d).toLower = dChar d ∧
    dChar d ≠ '.' ∧ dChar d ≠ 'k' ∧ dChar d ≠ '-' ∧ dChar d ≠ '+' := by decide

/-- Folding the digit-accumulation step over a printed number extends the
accumulated value correctly. -/
theorem decStrAux_foldl : ∀ (fuel n : ℕ) (acc : List Char), n ≤ fuel →
    List.foldl (fun a c => 10 * a + charVal c) 0 (decStrAux fuel n acc) =
      List.foldl (fun a c => 10 * a + charVal c) n acc := by
  intro fuel
  induction fuel with
  | zero =>
    intro n acc h
    have hn : n = 0 := by omega
    subst hn
    simp [decStrAux]
  | succ fuel ih =>
    intro n acc h
    by_cases h10 : n < 10
    · simp only [decStrAux, if_pos h10, List.foldl_cons]
      have hv := (dChar_facts n h10).1
      rw [hv]
      congr 1
      omega
    · simp only [decStrAux, if_neg h10]
      rw [ih (n / 10) (dChar (n % 10) :: acc) (by omega)]
      rw [List.foldl_cons]
      have hv := (dChar_facts (n % 10) (by omega)).1
      rw [hv]
      congr 1
      omega

/-- Every character produced by the printer is a digit character (or came
from the accumulator). -/
theorem decStrAux_mem : ∀ (fuel n : ℕ) (acc : List Char) (c : Char),
    c ∈ decStrAux fuel n acc → (∃ d, d < 10 ∧ c = dChar d) ∨ c ∈ acc := by
  intro fuel
  induction fuel with
  | zero =>
    intro n acc c h
    right
    simpa [decStrAux] using h
  | succ fuel ih =>
    intro n acc c h
    by_cases h10 : n < 10
    · simp only [decStrAux, if_pos h10, List.mem_cons] at h
      rcases h with h | h
      · exact .inl ⟨n, h10, h⟩
      · exact .inr h
    · simp only [decStrAux, if_neg h10] at h
      rcases ih _ _ _ h with h' | h'
      · exact .inl h'
      · rcases List.mem_cons.mp h' with h'' | h''
        · exact .inl ⟨n % 10, by omega, h''⟩
        · exact .inr h''

/-- With enough fuel the printer emits at least one character. -/
theorem decStrAux_ne_nil : ∀ (fuel n : ℕ) (acc : List Char), n < fuel →
    decStrAux fuel n acc ≠ [] := by
  intro fuel
  induction fuel with
  | zero =>
    intro n acc h
    exact absurd h (Nat.not_lt_zero n)
  | succ fuel ih =>
    intro n acc h
    by_cases h10 : n < 10
    · simp [decStrAux, h10]
    · simp only [decStrAux, if_neg h10]
      exact ih (n / 10) _ (by omega)

/-- The printed string of `n` evaluates back to `n`. -/
theorem natVal_decStr (n : ℕ) : natVal (decStr n).data = n := by
  have h := decStrAux_foldl (n + 1) n [] (by omega)
  simpa [decStr, natVal] using h

/-- Every character of `decStr n` is a digit character. -/
theorem mem_decStr (n : ℕ) {c : Char} (h : c ∈ (decStr n).data) :
    ∃ d, d < 10 ∧ c = dChar d := by
  rcases decStrAux_mem (n + 1) n [] c h with h' | h'
  · exact h'
  · simp at h'

/-- `decStr n` is never empty. -/
theorem decStr_ne_nil (n : ℕ) : (decStr n).data ≠ [] :=
  decStrAux_ne_nil (n + 1) n [] (by omega)

/-- All characters of `decStr n` pass `Char.isDigit`. -/
theorem all_isDigit_decStr (n : ℕ) : (decStr n).data.all Char.isDigit = true := by
  rw [List.all_eq_true]
  intro c hc
  rcases mem_decStr n hc with ⟨d, hd, rfl⟩
  exact (dChar_facts d hd).2.1

/-- Lower-casing leaves a printed number unchanged. -/
theorem map_toLower_decStr (n : ℕ) : (decStr n).data.map Char.toLower = (decStr n).data := by
  conv_rhs => rw [← List.map_id ((decStr n).data)]
  apply List.map_congr_left
  intro c hc
  rcases mem_decStr n hc with ⟨d, hd, rfl⟩
  exact (dChar_facts d hd).2.2.1

/-- No character of `decStr n` equals the given special character. -/
theorem decStr_no_special (n : ℕ) {ch : Char} (h : ∀ d, d < 10 → dChar d ≠ ch) :
    ∀ c ∈ (decStr n).data, c ≠ ch := by
  intro c hc
  rcases mem_decStr n hc with ⟨d, hd, rfl⟩
  exact h d hd

/-- `decStr n` is not the sentinel string `"-1"`. -/
theorem decStr_ne_sentinel (n : ℕ) : decStr n ≠ "-1" := by
  intro h
  have hmem : '-' ∈ (decStr n).data := by
    rw [h]
    decide
  rcases mem_decStr n hmem with ⟨d, hd, hEq⟩
  exact (dChar_facts d hd).2.2.2.2.2.1 hEq.symm

/-! ## Parser correctness on printed numbers -/

/-- For a single digit the printer emits exactly one character. -/
theorem decStr_single (e : ℕ) (he : e < 10) : (decStr e).data = [dChar e] := by
  simp [decStr, decStrAux, if_pos he]

/-- `int(str(n)) = n` in the model. -/
theorem pyInt?_decStr (n : ℕ) : pyInt? (decStr n) = some (n : ℤ) := by
  rcases hdata : (decStr n).data with _ | ⟨c, cs⟩
  · exact absurd hdata (decStr_ne_nil n)
  · have hc : ∃ d, d < 10 ∧ c = dChar d :=
      mem_decStr n (by rw [hdata]; exact List.mem_cons_self c cs)
    rcases hc with ⟨d, hd, rfl⟩
    have hnotdash : ¬(dChar d = '-') := (dChar_facts d hd).2.2.2.2.2.1
    have hnotplus : ¬(dChar d = '+') := (dChar_facts d hd).2.2.2.2.2.2
    have hall : (dChar d :: cs).all Char.isDigit = true := by
      rw [← hdata]; exact all_isDigit_decStr n
    have hval : natVal (dChar d :: cs) = n := by
      rw [← hdata]; exact natVal_decStr n
    simp only [pyInt?, hdata, if_neg hnotdash, if_neg hnotplus]
    rw [if_pos ⟨List.cons_ne_nil _ _, hall⟩]
    simp [hval]

/-- Lower-casing fixes the printed number (as a string). -/
theorem pyLower_decStr (n : ℕ) : pyLower (decStr n) = decStr n := by
  simp only [pyLower, map_toLower_decStr]

/-- A printed number contains no `'k'`. -/
theorem decStr_not_contains_k (n : ℕ) : (decStr n).data.contains 'k' = false := by
  rw [Bool.eq_false_iff]
  intro h
  have hmem : 'k' ∈ (decStr n).data := List.elem_iff.mp h
  exact decStr_no_special n (fun d hd => (dChar_facts d hd).2.2.1.symm ▸
    (dChar_facts d hd).2.2.2.2.1) 'k' hmem rfl

/-- `parse_count` on a plain printed integer is the integer itself. -/
theorem parse_count_decStr (n : ℕ) : parse_count (decStr n) = .ok (n : ℤ) := by
  unfold parse_count
  rw [if_neg (decStr_ne_sentinel n)]
  rw [pyLower_decStr, if_neg (by rw [decStr_not_contains_k n]; exact Bool.false_ne_true)]
  rw [pyInt?_decStr]

/-! ## Parsing the abbreviated `…k` strings -/

/-- `takeWhile`/`dropWhile` at the decimal point of a well-formed decimal. -/
theorem takeWhile_append_dot (A B : List Char) (h : ∀ c ∈ A, c ≠ '.') :
    (A ++ '.' :: B).takeWhile (· ≠ '.') = A ∧
      (A ++ '.' :: B).dropWhile (· ≠ '.') = '.' :: B := by
  induction A with
  | nil => constructor <;> simp [List.takeWhile, List.dropWhile]
  | cons a A ih =>
    have ha : a ≠ '.' := h a (List.mem_cons_self a A)
    have ih' := ih (fun c hc => h c (List.mem_cons_of_mem a hc))
    constructor
    · rw [List.cons_append, List.takeWhile_cons, if_pos (by simp [ha]), ih'.1]
    · rw [List.cons_append, List.dropWhile_cons, if_pos (by simp [ha]), ih'.2]

/-- `float(str(n)) = n` in the model. -/
theorem pyFloat?_decStr (n : ℕ) : pyFloat? (decStr n) = some ((n : ℤ), 0) := by
  have hnodot : ∀ c ∈ (decStr n).data, c ≠ '.' :=
    decStr_no_special n (fun d hd => (dChar_facts d hd).2.2.2.1)
  have hdrop : (decStr n).data.dropWhile (· ≠ '.') = [] :=
    List.dropWhile_eq_nil_iff.mpr (fun a ha => by simpa using hnodot a ha)
  have htake : (decStr n).data.takeWhile (· ≠ '.') = (decStr n).data :=
    List.takeWhile_eq_self_iff.mpr (fun a ha => by simpa using hnodot a ha)
  have hcore : pyFloatCore? (decStr n).data = some ((n : ℤ), 0) := by
    unfold pyFloatCore?
    rw [hdrop]
    simp only [htake]
    rw [if_pos ⟨decStr_ne_nil n, all_isDigit_decStr n⟩, natVal_decStr]
  rcases hdata : (decStr n).data with _ | ⟨c, cs⟩
  · exact absurd hdata (decStr_ne_nil n)
  · have hc : ∃ d, d < 10 ∧ c = dChar d :=
      mem_decStr n (by rw [hdata]; exact List.mem_cons_self c cs)
    rcases hc with ⟨d, hd, rfl⟩
    simp only [pyFloat?, hdata, if_neg ((dChar_facts d hd).2.2.2.2.2.1),
      if_neg ((dChar_facts d hd).2.2.2.2.2.2)]
    rw [← hdata, hcore]

/-- `parse_count` on `str(d) + "k"` yields `1000 * d`. -/
theorem parse_count_digit_k (d : ℕ) :
    parse_count (decStr d ++ "k") = .ok (1000 * (d : ℤ)) := by
  have hdata : (decStr d ++ "k").data = (decStr d).data ++ ['k'] := by
    rw [String.data_append]
  have hmaps : (decStr d ++ "k").data.map Char.toLower = (decStr d ++ "k").data := by
    rw [hdata, List.map_append, map_toLower_decStr, List.map_cons, List.map_nil,
      show 'k'.toLower = 'k' from by decide]
  have hne : decStr d ++ "k" ≠ "-1" := by
    intro h
    have h2 : (decStr d).data ++ ['k'] = ['-', '1'] := by rw [← hdata, h]
    have h3 : 'k' ∈ (['-', '1'] : List Char) := by
      rw [← h2]; exact List.mem_append_right _ (List.mem_cons_self _ _)
    simp at h3
  have hlowd : (pyLower (decStr d ++ "k")).data = (decStr d ++ "k").data := hmaps
  have hcont : (pyLower (decStr d ++ "k")).data.contains 'k' = true := by
    rw [hlowd]
    exact List.elem_iff.mpr (by rw [hdata]; exact List.mem_append_right _ (List.mem_cons_self _ _))
  have hstrip : stripK (pyLower (decStr d ++ "k")) = decStr d := by
    unfold stripK
    congr 1
    rw [hlowd, hdata, List.filter_append]
    rw [List.filter_eq_self.mpr (fun a ha => by
      simpa using decStr_no_special d (fun dd hdd => (dChar_facts dd hdd).2.2.2.2.1) a ha)]
    simp
    rfl
  unfold parse_count
  rw [if_neg hne, if_pos hcont, hstrip, pyFloat?_decStr]
  show Except.ok (pyTruncScaled (d : ℤ) 0) = Except.ok (1000 * (d : ℤ))
  unfold pyTruncScaled
  rw [pow_zero, Int.tdiv_one]

/-- `parse_count` on `str(a) + "." + str(e) + "k"` (one fractional digit)
yields `1000 * a + 100 * e`. -/
theorem parse_count_dot_k (a e : ℕ) (he : e < 10) :
    parse_count (decStr a ++ "." ++ decStr e ++ "k") = .ok (1000 * (a : ℤ) + 100 * e) := by
  have hE : (decStr e).data = [dChar e] := decStr_single e he
  have hdata : (decStr a ++ "." ++ decStr e ++ "k").data =
      (decStr a).data ++ '.' :: ((decStr e).data ++ ['k']) := by
    rw [String.data_append, String.data_append, String.data_append]
    simp [List.append_assoc]
  have hnodotA : ∀ c ∈ (decStr a).data, c ≠ '.' :=
    decStr_no_special a (fun dd hdd => (dChar_facts dd hdd).2.2.2.1)
  have hmaps : (decStr a ++ "." ++ decStr e ++ "k").data.map Char.toLower =
      (decStr a ++ "." ++ decStr e ++ "k").data := by
    rw [hdata, List.map_append, map_toLower_decStr, List.map_cons, List.map_append,
      map_toLower_decStr, List.map_cons, List.map_nil,
      show 'k'.toLower = 'k' from by decide, show '.'.toLower = '.' from by decide]
  have hne : decStr a ++ "." ++ decStr e ++ "k" ≠ "-1" := by
    intro h
    have h2 : (decStr a).data ++ '.' :: ((decStr e).data ++ ['k']) = ['-', '1'] := by
      rw [← hdata, h]
    have h3 : '.' ∈ (['-', '1'] : List Char) := by
      rw [← h2]
      exact List.mem_append_right _ (List.mem_cons_self _ _)
    simp at h3
  have hlowd : (pyLower (decStr a ++ "." ++ decStr e ++ "k")).data =
      (decStr a ++ "." ++ decStr e ++ "k").data := hmaps
  have hcont : (pyLower (decStr a ++ "." ++ decStr e ++ "k")).data.contains 'k' = true := by
    rw [hlowd]
    refine List.elem_iff.mpr ?_
    rw [hdata]
    exact List.mem_append_right _ (List.mem_cons_of_mem _
      (List.mem_append_right _ (List.mem_cons_self _ _)))
  have hstrip : stripK (pyLower (decStr a ++ "." ++ decStr e ++ "k")) =
      ⟨(decStr a).data ++ '.' :: (decStr e).data⟩ := by
    unfold stripK
    congr 1
    rw [hlowd, hdata, List.filter_append, List.filter_cons]
    rw [List.filter_eq_self.mpr (fun c hc => by
      simpa using decStr_no_special a (fun dd hdd => (dChar_facts dd hdd).2.2.2.2.1) c hc)]
    rw [List.filter_append]
    rw [List.filter_eq_self.mpr (fun c hc => by
      simpa using decStr_no_special e (fun dd hdd => (dChar_facts dd hdd).2.2.2.2.1) c hc)]
    simp
  have hfloat : pyFloat? ⟨(decStr a).data ++ '.' :: (decStr e).data⟩ =
      some (((a : ℤ) * 10 + (e : ℤ), 1) : ℤ × ℕ) := by
    have htd := takeWhile_append_dot (decStr a).data (decStr e).data hnodotA
    have hcore : pyFloatCore? ((decStr a).data ++ '.' :: (decStr e).data) =
        some (((a : ℤ) * 10 + (e : ℤ), 1) : ℤ × ℕ) := by
      unfold pyFloatCore?
      rw [htd.2]
      simp only [htd.1]
      rw [if_pos ⟨Or.inl (decStr_ne_nil a), all_isDigit_decStr a, all_isDigit_decStr e, by
        intro hc
        have hmem := List.elem_iff.mp hc
        rw [hE] at hmem
        simp at hmem
        exact (dChar_facts e he).2.2.2.1 hmem.symm⟩]
      rw [natVal_decStr, hE]
      have hv : natVal [dChar e] = e := by
        simp [natVal, (dChar_facts e he).1]
      rw [hv]
      norm_num
    rcases hA : (decStr a).data with _ | ⟨c, cs⟩
    · exact absurd hA (decStr_ne_nil a)
    · have hc : ∃ dd, dd < 10 ∧ c = dChar dd :=
        mem_decStr a (by rw [hA]; exact List.mem_cons_self c cs)
      rcases hc with ⟨dd, hdd, rfl⟩
      have hgoal : pyFloatCore? ((dChar dd :: cs) ++ '.' :: (decStr e).data) =
          some (((a : ℤ) * 10 + (e : ℤ), 1) : ℤ × ℕ) := by rw [← hA]; exact hcore
      simp only [pyFloat?, List.cons_append]
      rw [if_neg ((dChar_facts dd hdd).2.2.2.2.2.1), if_neg ((dChar_facts dd hdd).2.2.2.2.2.2)]
      simpa using hgoal
  unfold parse_count
  rw [if_neg hne, if_pos hcont, hstrip, hfloat]
  show Except.ok (pyTruncScaled ((a : ℤ) * 10 + (e : ℤ)) 1) = _
  unfold pyTruncScaled
  rw [pow_one]
  rw [show (1000 : ℤ) * ((a : ℤ) * 10 + (e : ℤ)) = 10 * (100 * ((a : ℤ) * 10 + e)) by ring]
  rw [Int.mul_tdiv_cancel_left _ (by norm_num)]
  rw [show (100 : ℤ) * ((a : ℤ) * 10 + e) = 1000 * a + 100 * e by ring]

/-! ## Closed form of the rounding chain of `shorten_count` -/

/-- Floor of the rational `n/10` is natural division. -/
theorem floor_natCast_div_ten (n : ℕ) : ⌊(n : ℚ) / 10⌋ = ((n / 10 : ℕ) : ℤ) := by
  have h := Rat.floor_intCast_div_natCast (n : ℤ) 10
  push_cast at h
  rw [h]
  exact (Int.ofNat_div n 10).symm

/-- `pyRound` on `n/10` agrees with the integer computation `rheN`. -/
theorem pyRound_div10 (n : ℕ) : pyRound ((n : ℚ) / 10) = (rheN n : ℤ) := by
  obtain ⟨q, m, hm, rfl⟩ : ∃ q m, m < 10 ∧ n = 10 * q + m :=
    ⟨n / 10, n % 10, by omega, by omega⟩
  have hq : (10 * q + m) / 10 = q := by omega
  have hmm : (10 * q + m) % 10 = m := by omega
  have hfloor : ⌊((10 * q + m : ℕ) : ℚ) / 10⌋ = ((q : ℕ) : ℤ) := by
    rw [floor_natCast_div_ten, hq]
  have hsub : ((10 * q + m : ℕ) : ℚ) / 10 - (((q : ℕ) : ℤ) : ℚ) = (m : ℚ) / 10 := by
    push_cast
    ring
  have c1 : ((m : ℚ) / 10 < 1 / 2) ↔ m < 5 := by
    rw [div_lt_iff (show (0 : ℚ) < 10 by norm_num)]
    norm_num
  have c2 : ((1 : ℚ) / 2 < (m : ℚ) / 10) ↔ 5 < m := by
    rw [lt_div_iff (show (0 : ℚ) < 10 by norm_num)]
    norm_num
  simp only [pyRound, hfloor, hsub]
  unfold rheN
  rw [hq, hmm]
  by_cases h5 : m < 5
  · rw [if_pos (c1.mpr h5), if_pos h5]
  · by_cases h5' : 5 < m
    · rw [if_neg (fun hc => h5 (c1.mp hc)), if_pos (c2.mpr h5'), if_neg h5, if_pos h5']
      push_cast
      ring
    · have hm5 : m = 5 := by omega
      subst hm5
      rw [if_neg (by norm_num), if_neg (by norm_num), if_neg h5, if_neg h5']
      by_cases hev : q % 2 = 0
      · rw [if_pos ((Int.even_coe_nat q).mpr (Nat.even_iff.mpr hev)), if_pos hev]
      · rw [if_neg (fun hc => hev (Nat.even_iff.mp ((Int.even_coe_nat q).mp hc))), if_neg hev]
        push_cast
        ring

/-- `new_number` agrees with the integer computation `newN`. -/
theorem new_number_eq (n : ℕ) : new_number n = (newN n : ℤ) := by
  unfold new_number pyRound1
  rw [show (10 : ℚ) * ((n : ℚ) / 100) = (n : ℚ) / 10 by ring, pyRound_div10]
  have hceil : ⌈((rheN n : ℤ) : ℚ) / 10⌉ = (((rheN n + 9) / 10 : ℕ) : ℤ) := by
    set k := rheN n with hk
    set t := (k + 9) / 10 with ht
    have h1 : 10 * t < k + 10 := by omega
    have h2 : k ≤ 10 * t := by omega
    rw [Int.ceil_eq_iff]
    constructor
    · rw [lt_div_iff (show (0 : ℚ) < 10 by norm_num)]
      have h1q : (10 : ℚ) * t < (k : ℚ) + 10 := by exact_mod_cast h1
      push_cast
      linarith
    · rw [div_le_iff (show (0 : ℚ) < 10 by norm_num)]
      have h2q : (k : ℚ) ≤ 10 * t := by exact_mod_cast h2
      push_cast
      linarith
  rw [hceil]
  push_cast [newN]
  ring

/-- `shorten_count` agrees with the integer computation `shortenN`. -/
theorem shorten_count_eq (n : ℕ) : shorten_count n = shortenN n := by
  unfold shorten_count shortenN
  rw [new_number_eq, Int.toNat_natCast]

/-! ## The round trip `parse_count ∘ shorten_count` -/

/-- Taking the first character of `str(1000 * d)` gives the digit of `d`. -/
theorem decStr_take1 : ∀ d, d < 10 → 1 ≤ d →
    (⟨(decStr (1000 * d)).data.take 1⟩ : String) = decStr d := by decide

/-- On `1000 ≤ n ≤ 9904` the abbreviation round-trips back exactly to the
rounded value `new_number`, which is within 95 of `n`. -/
theorem parse_shorten_roundtrip (n : ℕ) (h1 : 1000 ≤ n) (h2 : n ≤ 9904) :
    parse_count (shorten_count n) = .ok ((newN n : ℕ) : ℤ) ∧
      ((newN n : ℤ) - (n : ℤ)).natAbs ≤ 95 := by
  have hr : 1000 ≤ newN n ∧ newN n ≤ 9900 ∧ newN n % 100 = 0 := by
    unfold newN rheN
    split_ifs <;> omega
  have habs : ((newN n : ℤ) - (n : ℤ)).natAbs ≤ 95 := by
    unfold newN rheN
    unfold newN rheN at hr
    split_ifs at hr ⊢ <;> omega
  refine ⟨?_, habs⟩
  rw [shorten_count_eq]
  unfold shortenN
  rw [if_neg (by omega)]
  by_cases hdvd : newN n % 1000 = 0
  · obtain ⟨d, hd1, hd9, hEq⟩ : ∃ d, 1 ≤ d ∧ d ≤ 9 ∧ newN n = 1000 * d :=
      ⟨newN n / 1000, by omega, by omega, by omega⟩
    rw [if_pos hdvd, hEq, decStr_take1 d (by omega) hd1, parse_count_digit_k d]
    exact congrArg Except.ok (by push_cast; ring)
  · obtain ⟨d, e, hd1, hd9, he, hdEq, heEq, hEq⟩ :
        ∃ d e, 1 ≤ d ∧ d ≤ 9 ∧ e < 10 ∧ newN n / 1000 = d ∧
          newN n % 1000 / 100 = e ∧ newN n = 1000 * d + 100 * e :=
      ⟨newN n / 1000, newN n % 1000 / 100, by omega, by omega, by omega, rfl, rfl, by omega⟩
    rw [if_neg hdvd, if_neg (by omega), hdEq, heEq, parse_count_dot_k d e he, hEq]
    exact congrArg Except.ok (by push_cast; ring)

/-! ## Traversal and maximum lemmas for the graph layout -/

/-- A successful traversal contains the image of every member. -/
theorem mapExcept_ok_mem {α β : Type} (f : α → Except PyErr β) :
    ∀ (l : List α) (res : List β), mapExcept f l = .ok res →
      ∀ a ∈ l, ∀ b, f a = .ok b → b ∈ res := by
  intro l
  induction l with
  | nil =>
    intro res _ a ha
    simp at ha
  | cons x xs ih =>
    intro res h a ha b hb
    rcases hx : f x with ex | bx
    · rw [mapExcept, hx] at h
      simp at h
    · rcases hxs : mapExcept f xs with exs | bxs
      · rw [mapExcept, hx, hxs] at h
        simp at h
      · rw [mapExcept, hx, hxs] at h
        simp only [Except.ok.injEq] at h
        subst h
        rcases List.mem_cons.mp ha with rfl | hmem
        · rw [hx] at hb
          simp only [Except.ok.injEq] at hb
          subst hb
          exact List.mem_cons_self _ _
        · exact List.mem_cons_of_mem _ (ih bxs hxs a hmem b hb)

/-- A successful traversal means every member's image succeeded. -/
theorem mapExcept_ok_forall {α β : Type} (f : α → Except PyErr β) :
    ∀ (l : List α) (res : List β), mapExcept f l = .ok res →
      ∀ a ∈ l, ∃ b, f a = .ok b := by
  intro l
  induction l with
  | nil =>
    intro res _ a ha
    simp at ha
  | cons x xs ih =>
    intro res h a ha
    rcases hx : f x with ex | bx
    · rw [mapExcept, hx] at h
      simp at h
    · rcases hxs : mapExcept f xs with exs | bxs
      · rw [mapExcept, hx, hxs] at h
        simp at h
      · rcases List.mem_cons.mp ha with rfl | hmem
        · exact ⟨bx, hx⟩
        · exact ih bxs hxs a hmem

/-- A failing member makes the whole traversal fail. -/
theorem mapExcept_error_of_mem {α β : Type} (f : α → Except PyErr β) :
    ∀ (l : List α), (∃ a ∈ l, ∃ e, f a = .error e) →
      ∃ e', mapExcept f l = .error e' := by
  intro l
  induction l with
  | nil =>
    rintro ⟨a, ha, _⟩
    simp at ha
  | cons x xs ih =>
    rintro ⟨a, ha, e, he⟩
    rcases hx : f x with ex | bx
    · exact ⟨ex, by rw [mapExcept, hx]⟩
    · rcases List.mem_cons.mp ha with rfl | hmem
      · rw [hx] at he
        simp at he
      · rcases ih ⟨a, hmem, e, he⟩ with ⟨e', he'⟩
        exact ⟨e', by rw [mapExcept, hx, he']⟩

/-- The seed is below a running maximum. -/
theorem le_foldl_max : ∀ (l : List ℤ) (a : ℤ), a ≤ l.foldl max a := by
  intro l
  induction l with
  | nil => intro a; simp
  | cons x xs ih =>
    intro a
    rw [List.foldl_cons]
    exact le_trans (le_max_left a x) (ih (max a x))

/-- Every member is below a running maximum. -/
theorem mem_le_foldl_max : ∀ (l : List ℤ) (a x : ℤ), x ∈ l → x ≤ l.foldl max a := by
  intro l
  induction l with
  | nil =>
    intro a x h
    simp at h
  | cons y ys ih =>
    intro a x h
    rw [List.foldl_cons]
    rcases List.mem_cons.mp h with rfl | hmem
    · exact le_trans (le_max_right a x) (le_foldl_max ys (max a x))
    · exact ih (max a y) x hmem

/-- A record's parsed star count is at most `max_stars`. -/
theorem parse_le_max_stars (repos : List Repo) (r : Repo) (hr : r ∈ repos) (s ms : ℤ)
    (hs : parse_count r.stargazers_count = .ok s) (hms : max_stars? repos = .ok ms) :
    s ≤ ms := by
  unfold max_stars? at hms
  rcases hml : mapExcept (fun repo => parse_count repo.stargazers_count) repos with e | l
  · rw [hml] at hms
    simp at hms
  · rw [hml] at hms
    have hsl : s ∈ l := mapExcept_ok_mem _ repos l hml r hr s hs
    rcases l with _ | ⟨x, xs⟩
    · simp at hsl
    · simp only [pyMax, Except.ok.injEq] at hms
      subst hms
      rcases List.mem_cons.mp hsl with rfl | hmem
      · exact le_foldl_max xs s
      · exact mem_le_foldl_max xs x s hmem

/-- A record's parsed fork count is at most `max_forks`. -/
theorem parse_le_max_forks (repos : List Repo) (r : Repo) (hr : r ∈ repos) (f mf : ℤ)
    (hf : parse_count r.forks = .ok f) (hmf : max_forks? repos = .ok mf) :
    f ≤ mf := by
  unfold max_forks? at hmf
  rcases hml : mapExcept (fun repo => parse_count repo.forks) repos with e | l
  · rw [hml] at hmf
    simp at hmf
  · rw [hml] at hmf
    have hfl : f ∈ l := mapExcept_ok_mem _ repos l hml r hr f hf
    rcases l with _ | ⟨x, xs⟩
    · simp at hfl
    · simp only [pyMax, Except.ok.injEq] at hmf
      subst hmf
      rcases List.mem_cons.mp hfl with rfl | hmem
      · exact le_foldl_max xs f
      · exact mem_le_foldl_max xs x f hmem

/-- If every record's star count parses nonnegative, `max_stars` is
nonnegative (the sequence being nonempty). -/
theorem max_stars_nonneg (repos : List Repo) (r : Repo) (hr : r ∈ repos) (s ms : ℤ)
    (hs : parse_count r.stargazers_count = .ok s) (hs0 : 0 ≤ s)
    (hms : max_stars? repos = .ok ms) : 0 ≤ ms :=
  le_trans hs0 (parse_le_max_stars repos r hr s ms hs hms)

/-! ## Bar-width arithmetic -/

/-- For nonnegative `c` and positive `M` the truncated width is the floor
of the rational `c / M * 40` — i.e. Python's `int()` on this expression is
a genuine floor. -/
theorem tdiv_eq_floor_scale (c M : ℤ) (hc : 0 ≤ c) (hM : 0 < M) :
    (c * (max_bar_width : ℤ)).tdiv M = ⌊(c : ℚ) / (M : ℚ) * (max_bar_width : ℚ)⌋ := by
  have hM0 : M = ((M.toNat : ℕ) : ℤ) := (Int.toNat_of_nonneg (le_of_lt hM)).symm
  have hq : (c : ℚ) / (M : ℚ) * (max_bar_width : ℚ) =
      ((c * (max_bar_width : ℤ) : ℤ) : ℚ) / ((M.toNat : ℕ) : ℚ) := by
    rw [hM0]
    push_cast
    have hMne : ((M.toNat : ℕ) : ℚ) ≠ 0 := by
      have : 0 < M.toNat := by omega
      positivity
    field_simp
  rw [hq, Rat.floor_intCast_div_natCast]
  rw [Int.tdiv_eq_ediv (by positivity) (le_of_lt hM)]
  rw [← hM0]

/-- Width bounds: nonnegative, zero on a zero count, and at most 40
whenever the count is bounded by the divisor. -/
theorem tdiv_scale_bounds (c M : ℤ) (hc : 0 ≤ c) (hM : 0 < M) :
    0 ≤ (c * (max_bar_width : ℤ)).tdiv M ∧
      (c = 0 → (c * (max_bar_width : ℤ)).tdiv M = 0) ∧
      (c ≤ M → (c * (max_bar_width : ℤ)).tdiv M ≤ 40) := by
  refine ⟨Int.tdiv_nonneg (by positivity) (le_of_lt hM), ?_, ?_⟩
  · rintro rfl
    simp [Int.zero_tdiv]
  · intro hcM
    rw [Int.tdiv_eq_ediv (by positivity) (le_of_lt hM)]
    have h1 : c * (max_bar_width : ℤ) ≤ M * (max_bar_width : ℤ) := by
      have : (0 : ℤ) ≤ (max_bar_width : ℤ) := by norm_num [max_bar_width]
      nlinarith
    have h2 : c * (max_bar_width : ℤ) / M ≤ M * (max_bar_width : ℤ) / M :=
      Int.ediv_le_ediv hM h1
    have h3 : M * (max_bar_width : ℤ) / M = (max_bar_width : ℤ) := by
      rw [mul_comm]
      exact Int.mul_ediv_cancel _ (ne_of_gt hM)
    rw [h3] at h2
    simpa [max_bar_width] using h2

/-! ## Claim theorems -/

/-- C3: for `n = 10000` the rounded value `new_number` is `10000`, an exact
multiple of 1000, yet `shorten_count` returns `"1k"` — the first character
of `str(10000)` — instead of the `"10k"` the claimed formula
`"{r/1000}k"` produces.  This evaluates the code at the failing input of
the code-bug report. -/
theorem C3_shorten_count_first_digit_bug :
    shorten_count 10000 = "1k" ∧ new_number 10000 = 10000 := by
  constructor
  · rw [shorten_count_eq]
    decide
  · rw [new_number_eq]
    decide

/-- C4 (counterexample): `shorten_count 1234` is `"1.3k"`, not the claimed
`"1.2k"` (12.34 rounds to the one-decimal 12.3, whose ceiling is 13, so
`new_number = 1300`). -/
theorem C4_counterexample :
    shorten_count 1234 ≠ "1.2k" ∧ shorten_count 1234 = "1.3k" := by
  constructor
  · rw [shorten_count_eq]
    decide
  · rw [shorten_count_eq]
    decide

/-- C4 (amended): for every `n ≥ 1000` whose rounded value `new_number n`
is at least 1000 and not a multiple of 1000, `shorten_count` returns
`"{d}.{e}k"` with exactly one decimal digit `e ≠ 0`, where
`new_number n = 1000 * d + 100 * e`; and in particular
`shorten_count 1234 = "1.3k"` (the spec's example `"1.2k"` is wrong). -/
theorem C4_one_decimal :
    (∀ n : ℕ, 1000 ≤ n → 1000 ≤ new_number n → ¬ (1000 : ℤ) ∣ new_number n →
      ∃ d e : ℕ, e < 10 ∧ 1 ≤ e ∧
        shorten_count n = decStr d ++ "." ++ decStr e ++ "k" ∧
        new_number n = 1000 * d + 100 * e) ∧
    shorten_count 1234 = "1.3k" := by
  constructor
  · intro n h1 _ hdvd
    have hdvdN : ¬ 1000 ∣ newN n := by
      intro hc
      rw [new_number_eq] at hdvd
      exact hdvd (by exact_mod_cast Int.natCast_dvd_natCast.mpr hc)
    have hge : 1000 ≤ newN n ∧ newN n % 100 = 0 := by
      unfold newN rheN
      split_ifs <;> omega
    obtain ⟨d, e, he10, he1, hdEq, heEq, hEq⟩ :
        ∃ d e : ℕ, e < 10 ∧ 1 ≤ e ∧ newN n / 1000 = d ∧ newN n % 1000 / 100 = e ∧
          newN n = 1000 * d + 100 * e :=
      ⟨newN n / 1000, newN n % 1000 / 100, by omega, by omega, rfl, rfl, by omega⟩
    refine ⟨d, e, he10, he1, ?_, ?_⟩
    · rw [shorten_count_eq]
      unfold shortenN
      rw [if_neg (by omega), if_neg (by omega), if_neg (by omega), hdEq, heEq]
    · rw [new_number_eq, hEq]
      push_cast
      ring
  · rw [shorten_count_eq]
    decide

/-- C4 (witness): the amended theorem applied at `n = 1234`. -/
theorem C4_one_decimal_witness :
    (1000 ≤ 1234 ∧ 1000 ≤ new_number 1234 ∧ ¬ (1000 : ℤ) ∣ new_number 1234) ∧
    (∃ d e : ℕ, e < 10 ∧ 1 ≤ e ∧
      shorten_count 1234 = decStr d ++ "." ++ decStr e ++ "k" ∧
      new_number 1234 = 1000 * d + 100 * e) :=
  ⟨⟨by norm_num, by rw [new_number_eq]; decide, by rw [new_number_eq]; decide⟩,
    C4_one_decimal.1 1234 (by norm_num) (by rw [new_number_eq]; decide)
      (by rw [new_number_eq]; decide)⟩

/-- C5 (counterexample): the round trip at `n = 1906` gives 2000, which is
94 away from 1906 — beyond the claimed ±50 tolerance. -/
theorem C5_counterexample :
    parse_count (shorten_count 1906) = .ok 2000 ∧
      50 < ((2000 : ℤ) - 1906).natAbs := by
  constructor
  · rw [shorten_count_eq]
    decide
  · decide

/-- C5 (amended): for `1000 ≤ n ≤ 9904` (the range in which the
abbreviation keeps a full leading digit), `parse_count (shorten_count n)`
recovers `n` within ±95 — the exact worst case of rounding up to the next
hundred; the claimed ±50 is too tight, and beyond `n ≈ 9905` the
first-character bug of C3 loses the magnitude entirely. -/
theorem C5_roundtrip_tolerance (n : ℕ) (h1 : 1000 ≤ n) (h2 : n ≤ 9904) :
    ∃ v : ℤ, parse_count (shorten_count n) = .ok v ∧ (v - (n : ℤ)).natAbs ≤ 95 :=
  ⟨((newN n : ℕ) : ℤ), (parse_shorten_roundtrip n h1 h2).1,
    (parse_shorten_roundtrip n h1 h2).2⟩

/-- C5 (witness): the amended theorem applied at `n = 1906`. -/
theorem C5_roundtrip_tolerance_witness :
    (1000 ≤ 1906 ∧ 1906 ≤ 9904) ∧
    (∃ v : ℤ, parse_count (shorten_count 1906) = .ok v ∧
      (v - (1906 : ℤ)).natAbs ≤ 95) :=
  ⟨⟨by norm_num, by norm_num⟩, C5_roundtrip_tolerance 1906 (by norm_num) (by norm_num)⟩

/-- C6 (counterexample): `"0.0017k"` parses to 1 — the truncation of the
float product 1.7 — whereas the claimed `round(number * 1000)` (Python
rounding, modeled by `pyRound`) gives 2. -/
theorem C6_counterexample :
    parse_count "0.0017k" = .ok 1 ∧ pyRound ((17 / 10000 : ℚ) * 1000) = 2 := by
  constructor
  · decide
  · rw [show (17 / 10000 : ℚ) * 1000 = 17 / 10 by norm_num]
    have hf : ⌊(17 / 10 : ℚ)⌋ = 1 := by norm_num
    simp only [pyRound, hf]
    norm_num

/-- C6 (amended): `parse_count` maps the sentinel `"-1"` to 0; on a string
`<number>k` it returns the float product `number * 1000` truncated toward
zero — which equals `round(number * 1000)` for every one-decimal
abbreviation `d.e k` (and the match is case-insensitive); and otherwise it
parses the string as a literal integer. -/
theorem C6_parse_count_spec :
    parse_count "-1" = .ok 0 ∧
    (∀ d e : ℕ, e < 10 →
      parse_count (decStr d ++ "." ++ decStr e ++ "k") = .ok (1000 * (d : ℤ) + 100 * e)) ∧
    (∀ n : ℕ, parse_count (decStr n) = .ok (n : ℤ)) ∧
    parse_count "8.2k" = .ok 8200 ∧ parse_count "8.2K" = .ok 8200 := by
  refine ⟨by decide, ?_, ?_, by decide, by decide⟩
  · intro d e he
    exact parse_count_dot_k d e he
  · intro n
    exact parse_count_decStr n

/-- C6 (witness): the amended theorem applied at the one-decimal
abbreviation `8.2k`. -/
theorem C6_parse_count_spec_witness :
    (2 : ℕ) < 10 ∧
    parse_count (decStr 8 ++ "." ++ decStr 2 ++ "k") = .ok (1000 * (8 : ℤ) + 100 * (2 : ℕ)) :=
  ⟨by norm_num, C6_parse_count_spec.2.1 8 2 (by norm_num)⟩

/-- C7: `format_stats` emits the star component exactly when
`stars ≠ "-1"` followed by the fork component exactly when `forks ≠ "-1"`,
in that order, with nothing for an omitted field; both sentinels give the
empty string. -/
theorem C7_format_stats_spec :
    (∀ s f : String, s ≠ "-1" → f ≠ "-1" →
      format_stats s f = s ++ "★ " ++ (f ++ "⎇ ")) ∧
    (∀ s f : String, s ≠ "-1" → f = "-1" → format_stats s f = s ++ "★ ") ∧
    (∀ s f : String, s = "-1" → f ≠ "-1" → format_stats s f = f ++ "⎇ ") ∧
    format_stats "-1" "-1" = "" := by
  refine ⟨?_, ?_, ?_, by decide⟩
  · intro s f hs hf
    unfold format_stats
    rw [if_pos hs, if_pos hf, show SYMBOL_MAP_stars = "★" from rfl,
      show SYMBOL_MAP_forks = "⎇" from rfl, String.append_assoc s "★" " ",
      String.append_assoc f "⎇" " ",
      show ("★" ++ " " : String) = "★ " from rfl,
      show ("⎇" ++ " " : String) = "⎇ " from rfl]
  · intro s f hs hf
    unfold format_stats
    rw [if_pos hs, if_neg (by simp [hf]), show SYMBOL_MAP_stars = "★" from rfl,
      String.append_assoc s "★" " ",
      show ("★" ++ " " : String) = "★ " from rfl, String.append_empty]
  · intro s f hs hf
    unfold format_stats
    rw [if_neg (by simp [hs]), if_pos hf, show SYMBOL_MAP_forks = "⎇" from rfl,
      String.append_assoc f "⎇" " ",
      show ("⎇" ++ " " : String) = "⎇ " from rfl, String.empty_append]

/-- C7 (witness): `format_stats "42" "-1"` contains only the star
component. -/
theorem C7_format_stats_spec_witness : format_stats "42" "-1" = "42★ " :=
  C7_format_stats_spec.2.1 "42" "-1" (by decide) rfl

/-- C8: any layout name outside `table`/`grid`/`graph` — including the
empty string — dispatches exactly as the explicit name `"list"` does, and
never fails: the result is `list_layout` wrapped in `.ok`. -/
theorem C8_dispatch_default (repos : List Repo) (layout : String)
    (h1 : layout ≠ "table") (h2 : layout ≠ "grid") (h3 : layout ≠ "graph") :
    print_layout repos layout = print_layout repos "list" ∧
    print_layout repos layout = .ok (list_layout repos) := by
  unfold print_layout
  rw [if_neg h1, if_neg h2, if_neg h3,
    if_neg (show ("list" : String) ≠ "table" by decide),
    if_neg (show ("list" : String) ≠ "grid" by decide),
    if_neg (show ("list" : String) ≠ "graph" by decide)]
  exact ⟨rfl, rfl⟩

/-- C8 (witness): the dispatcher applied to the empty layout name. -/
theorem C8_dispatch_default_witness :
    print_layout [] "" = print_layout [] "list" ∧
    print_layout [] "" = .ok (list_layout []) :=
  C8_dispatch_default [] "" (by decide) (by decide) (by decide)

/-- C10: on the empty record sequence the graph layout fails (Python's
`max()` of an empty generator raises `ValueError`), while the list, table
and grid layouts complete, producing respectively just the closing rule, an
empty table, and an empty panel flow. -/
theorem C10_empty_sequence :
    graph_layout [] = .error (.valueError "max() arg is an empty sequence") ∧
    list_layout [] = [Out.rule] ∧
    table_layout [] = [Out.tableOut []] ∧
    grid_layout [] = [Out.panels []] ∧
    print_layout [] "list" = .ok [Out.rule] := by
  refine ⟨rfl, rfl, rfl, rfl, rfl⟩

/-- C1 (counterexample): one record with 10 stars and 100 forks — both
counts valid per the data model — gets a fork bar of width 400, ten times
the claimed maximum of 40, because the fork bar is scaled by `max_stars`.
(The record fields are, in order: name, full name, url, language,
description, stargazers count, forks, date range.) -/
theorem C1_counterexample :
    max_stars? [(⟨"a", "o/a", "u", "", "", "10", "100", none⟩ : Repo)] = .ok 10 ∧
    parse_count "100" = .ok 100 ∧
    forks_bar_width 100 10 = 400 ∧ ¬ forks_bar_width 100 10 ≤ 40 := by
  refine ⟨by decide, by decide, by decide, by decide⟩

/-- C1 (amended): for valid records the star bar width is a nonnegative
integer at most 40, zero when the record's star count or `max_stars` is
zero; the fork bar width is nonnegative and zero when the record's fork
count, `max_forks`, or `max_stars` is zero, but it is bounded by 40 only
when the record's fork count does not exceed `max_stars` (it can exceed 40
otherwise, since the source scales forks by `max_stars`). -/
theorem C1_bar_width_bounds (repos : List Repo) (r : Repo) (hr : r ∈ repos)
    (hvalid : ∀ r' ∈ repos, validCount r'.stargazers_count ∧ validCount r'.forks)
    (s f ms mf : ℤ)
    (hs : parse_count r.stargazers_count = .ok s)
    (hf : parse_count r.forks = .ok f)
    (hms : max_stars? repos = .ok ms)
    (hmf : max_forks? repos = .ok mf) :
    (0 ≤ stars_bar_width s ms ∧ stars_bar_width s ms ≤ 40 ∧
      ((s = 0 ∨ ms = 0) → stars_bar_width s ms = 0)) ∧
    (0 ≤ forks_bar_width f ms ∧ (f ≤ ms → forks_bar_width f ms ≤ 40) ∧
      ((f = 0 ∨ mf = 0 ∨ ms = 0) → forks_bar_width f ms = 0)) := by
  obtain ⟨⟨vs, hvs, hvs0⟩, ⟨vf, hvf, hvf0⟩⟩ := hvalid r hr
  rw [hs] at hvs
  rw [hf] at hvf
  simp only [Except.ok.injEq] at hvs hvf
  subst hvs
  subst hvf
  have hsm : s ≤ ms := parse_le_max_stars repos r hr s ms hs hms
  have hfm : f ≤ mf := parse_le_max_forks repos r hr f mf hf hmf
  have hms0 : 0 ≤ ms := le_trans hvs0 hsm
  rcases eq_or_lt_of_le hms0 with hms0' | hmspos
  · unfold stars_bar_width forks_bar_width
    rw [if_neg (by omega), if_neg (by omega)]
    exact ⟨⟨le_refl 0, by norm_num, fun _ => rfl⟩,
      ⟨le_refl 0, fun _ => by norm_num, fun _ => rfl⟩⟩
  · have hb1 := tdiv_scale_bounds s ms hvs0 hmspos
    have hb2 := tdiv_scale_bounds f ms hvf0 hmspos
    unfold stars_bar_width forks_bar_width
    rw [if_pos hmspos, if_pos hmspos]
    refine ⟨⟨hb1.1, hb1.2.2 hsm, ?_⟩, ⟨hb2.1, fun h => hb2.2.2 h, ?_⟩⟩
    · rintro (rfl | rfl)
      · exact hb1.2.1 rfl
      · exact absurd hmspos (lt_irrefl 0)
    · rintro (rfl | hmf0 | rfl)
      · exact hb2.2.1 rfl
      · exact hb2.2.1 (le_antisymm (hmf0 ▸ hfm) hvf0)
      · exact absurd hmspos (lt_irrefl 0)

/-- C1 (witness): the amended theorem applied to a one-record list with 10
stars and 5 forks. -/
theorem C1_bar_width_bounds_witness :
    (0 ≤ stars_bar_width 10 10 ∧ stars_bar_width 10 10 ≤ 40 ∧
      (((10 : ℤ) = 0 ∨ (10 : ℤ) = 0) → stars_bar_width 10 10 = 0)) ∧
    (0 ≤ forks_bar_width 5 10 ∧ ((5 : ℤ) ≤ 10 → forks_bar_width 5 10 ≤ 40) ∧
      (((5 : ℤ) = 0 ∨ (5 : ℤ) = 0 ∨ (10 : ℤ) = 0) → forks_bar_width 5 10 = 0)) :=
  C1_bar_width_bounds [(⟨"a", "o/a", "u", "", "", "10", "5", none⟩ : Repo)]
    (⟨"a", "o/a", "u", "", "", "10", "5", none⟩ : Repo)
    (by simp)
    (fun r' hr' => by
      simp only [List.mem_singleton] at hr'
      subst hr'
      exact ⟨⟨10, by decide, by decide⟩, ⟨5, by decide, by decide⟩⟩)
    10 5 10 5 (by decide) (by decide) (by decide) (by decide)

/-- C2: for a valid record with parsed counts `s` (stars) and `f` (forks),
when `max_stars > 0` the star bar width is `⌊s / max_stars * 40⌋` and the
fork bar width is `⌊f / max_stars * 40⌋` — the fork bar is scaled by
`max_stars`, not `max_forks` — and when `max_stars = 0` both widths are 0
with no division error (the source guards the division). -/
theorem C2_bar_width_formula (repos : List Repo) (r : Repo) (hr : r ∈ repos)
    (s f ms : ℤ)
    (hs : parse_count r.stargazers_count = .ok s)
    (hf : parse_count r.forks = .ok f)
    (hms : max_stars? repos = .ok ms)
    (hs0 : 0 ≤ s) (hf0 : 0 ≤ f) :
    (0 < ms →
      stars_bar_width s ms = ⌊(s : ℚ) / (ms : ℚ) * 40⌋ ∧
      forks_bar_width f ms = ⌊(f : ℚ) / (ms : ℚ) * 40⌋) ∧
    (ms = 0 → stars_bar_width s ms = 0 ∧ forks_bar_width f ms = 0) := by
  constructor
  · intro hpos
    unfold stars_bar_width forks_bar_width
    rw [if_pos hpos, if_pos hpos]
    constructor
    · rw [tdiv_eq_floor_scale s ms hs0 hpos]
      norm_num [max_bar_width]
    · rw [tdiv_eq_floor_scale f ms hf0 hpos]
      norm_num [max_bar_width]
  · intro h0
    unfold stars_bar_width forks_bar_width
    rw [if_neg (by omega), if_neg (by omega)]
    exact ⟨rfl, rfl⟩

/-- C2 (witness): the formula applied to a one-record list with 8 stars
and 2 forks. -/
theorem C2_bar_width_formula_witness :
    ((0 : ℤ) < 8 →
      stars_bar_width 8 8 = ⌊((8 : ℤ) : ℚ) / ((8 : ℤ) : ℚ) * 40⌋ ∧
      forks_bar_width 2 8 = ⌊((2 : ℤ) : ℚ) / ((8 : ℤ) : ℚ) * 40⌋) ∧
    ((8 : ℤ) = 0 → stars_bar_width 8 8 = 0 ∧ forks_bar_width 2 8 = 0) :=
  C2_bar_width_formula [(⟨"a", "o/a", "u", "", "", "8", "2", none⟩ : Repo)]
    (⟨"a", "o/a", "u", "", "", "8", "2", none⟩ : Repo)
    (by simp) 8 2 8 (by decide) (by decide) (by decide) (by norm_num) (by norm_num)

/-- C9 (counterexample): two different graph render calls — one whose
first record has the invalid star count `"abc"`, one whose second record
has the invalid fork count `"abc"` — fail with the *identical* error
value, so the raised `ValueError` does not identify the offending field or
record; it names only the offending literal. -/
theorem C9_counterexample :
    graph_layout [(⟨"a", "o/a", "u", "", "", "abc", "0", none⟩ : Repo)] =
      .error (.valueError "invalid literal for int() with base 10: 'abc'") ∧
    graph_layout [(⟨"b", "o/b", "u", "", "", "5", "3", none⟩ : Repo),
                  (⟨"c", "o/c", "u", "", "", "7", "abc", none⟩ : Repo)] =
      .error (.valueError "invalid literal for int() with base 10: 'abc'") := by
  refine ⟨by decide, by decide⟩

/-- C9 (amended): whenever some record's star or fork count fails to
parse, `graph_layout` fails with a `ValueError` (carrying only the
offending literal in its message) that propagates out of the call; since
the graph renderer's only console write happens after all parsing, the
aborted call has produced no output. -/
theorem C9_graph_error_propagation (repos : List Repo)
    (h : ∃ r ∈ repos, (∃ e, parse_count r.stargazers_count = .error e) ∨
                      (∃ e, parse_count r.forks = .error e)) :
    ∃ msg, graph_layout repos = .error (.valueError msg) := by
  rcases h with ⟨r, hr, hbad⟩
  rcases hms : max_stars? repos with e | ms
  · cases e with
    | valueError msg => exact ⟨msg, by unfold graph_layout; rw [hms]⟩
  · rcases hbad with ⟨e, he⟩ | ⟨e, he⟩
    · exfalso
      unfold max_stars? at hms
      rcases hml : mapExcept (fun repo => parse_count repo.stargazers_count) repos
        with e' | l
      · rw [hml] at hms
        simp at hms
      · obtain ⟨b, hb⟩ := mapExcept_ok_forall _ repos l hml r hr
        rw [he] at hb
        simp at hb
    · obtain ⟨e', he'⟩ :=
        mapExcept_error_of_mem (fun repo => parse_count repo.forks) repos ⟨r, hr, e, he⟩
      have hmf : max_forks? repos = .error e' := by
        unfold max_forks?
        rw [he']
      cases e' with
      | valueError msg => exact ⟨msg, by unfold graph_layout; rw [hms, hmf]⟩

/-- C9 (witness): the amended theorem applied to a single record whose
star count is the invalid literal `"abc"`. -/
theorem C9_graph_error_propagation_witness :
    (∃ r ∈ [(⟨"a", "o/a", "u", "", "", "abc", "0", none⟩ : Repo)],
      (∃ e, parse_count r.stargazers_count = .error e) ∨
      (∃ e, parse_count r.forks = .error e)) ∧
    ∃ msg, graph_layout [(⟨"a", "o/a", "u", "", "", "abc", "0", none⟩ : Repo)] =
      .error (.valueError msg) :=
  ⟨⟨⟨"a", "o/a", "u", "", "", "abc", "0", none⟩, by simp,
      Or.inl ⟨.valueError "invalid literal for int() with base 10: 'abc'", by decide⟩⟩,
    C9_graph_error_propagation [(⟨"a", "o/a", "u", "", "", "abc", "0", none⟩ : Repo)]
      ⟨⟨"a", "o/a", "u", "", "", "abc", "0", none⟩, by simp,
        Or.inl ⟨.valueError "invalid literal for int() with base 10: 'abc'", by decide⟩⟩⟩
